import Mathlib

/-!
Shallow embedding of the UN internship scraper (src/UN_intern.py).

Strings are modelled as lists of characters (`Str`).  Every function below
mirrors one Python function or code block of the source; names follow the
source where Lean permits.
-/

set_option maxRecDepth 8000

abbrev Str := List Char

/-- Coerce a Lean string literal to the character-list representation. -/
def s2l (s : String) : Str := s.data

/-- The characters removed by the sanitizer regex `[\\/*?:\[\]]`. -/
def isInvalidChar (c : Char) : Bool :=
  c = '\\' || c = '/' || c = '*' || c = '?' || c = ':' || c = '[' || c = ']'

/-- The whitespace class matched by the regex `\s` (ASCII part). -/
def isPySpace (c : Char) : Bool :=
  c = ' ' || c = '\t' || c = '\n' || c = '\r' || c = '\x0b' || c = '\x0c'

/-- Helper for `re.sub(r"\s+", " ", s)`: the flag records whether the
previous character was part of a whitespace run already replaced. -/
def collapseWsAux : Bool → Str → Str
  | _, [] => []
  | prevWs, c :: cs =>
    if isPySpace c then
      if prevWs then collapseWsAux true cs
      else ' ' :: collapseWsAux true cs
    else c :: collapseWsAux false cs

/-- `re.sub(r"\s+", " ", s)`: each maximal whitespace run becomes one space. -/
def collapseWs (s : Str) : Str := collapseWsAux false s

/-- Python `str.strip()`: drop whitespace from both ends. -/
def pyStrip (s : Str) : Str :=
  ((s.dropWhile isPySpace).reverse.dropWhile isPySpace).reverse

/-- Lines 78-82 of the source: remove invalid characters, collapse
whitespace runs, strip, truncate to 31 characters. -/
def sanitizeBase (name : Str) : Str :=
  (pyStrip (collapseWs (name.filter (fun c => !isInvalidChar c)))).take 31

/-- Decimal digit character for one digit position (the argument is always
a value `< 10` where this is applied). -/
def digitChar (d : Nat) : Char :=
  match d with
  | 0 => '0' | 1 => '1' | 2 => '2' | 3 => '3' | 4 => '4'
  | 5 => '5' | 6 => '6' | 7 => '7' | 8 => '8' | _ => '9'

/-- Decimal digit characters of a natural number, accumulator form with
fuel (the fuel is always sufficient at the call below). -/
def natDigitsCore : Nat → Nat → Str → Str
  | 0, _, acc => acc
  | fuel + 1, n, acc =>
    if n < 10 then digitChar n :: acc
    else natDigitsCore fuel (n / 10) (digitChar (n % 10) :: acc)

/-- Decimal representation of a natural number, as Python `str(n)`. -/
def natDigits (n : Nat) : Str := natDigitsCore (n + 1) n []

/-- Python slice `l[:k]` for a possibly negative bound `k`. -/
def pySliceTo (l : Str) (k : Int) : Str :=
  l.take (if 0 ≤ k then k.toNat else ((l.length : Int) + k).toNat)

/-- The f-string `f"_{counter}"`. -/
def suffixFor (counter : Nat) : Str := '_' :: natDigits counter

/-- Lines 87-92 of the source: one candidate name tried by the uniqueness
loop for a given counter value. -/
def candidateName (base : Str) (counter : Nat) : Str :=
  let suffix := suffixFor counter
  if 31 < base.length + suffix.length then
    pySliceTo base (31 - (suffix.length : Int)) ++ suffix
  else base ++ suffix

/-- The `while sanitized in existing_names` loop of `sanitize_sheet_name`,
with explicit fuel.  The fuel is always sufficient (see the lemmas below),
so the out-of-fuel branch is never reached. -/
def uniquifyAux (base : Str) (S : List Str) : Nat → Nat → Str
  | _, 0 => base
  | counter, fuel + 1 =>
    let cand := candidateName base counter
    if cand ∈ S then uniquifyAux base S (counter + 1) fuel else cand

/-- `sanitize_sheet_name(name, existing_names)` (lines 66-95): returns the
chosen name together with the updated registry. -/
def sanitize_sheet_name (name : Str) (S : List Str) : Str × List Str :=
  let base := sanitizeBase name
  let result := if base ∈ S then uniquifyAux base S 1 (S.length + 1) else base
  (result, result :: S)

/-- A sequence of sanitizer calls sharing one registry: the list of
returned names. -/
def runSanitize : List Str → List Str → List Str
  | [], _ => []
  | n :: ns, S =>
    let p := sanitize_sheet_name n S
    p.1 :: runSanitize ns p.2

/-- No character of the string is one removed by the sanitizer regex. -/
def NoInvalid (s : Str) : Prop := ∀ c ∈ s, isInvalidChar c = false

/-- No two adjacent characters are both spaces (equivalently: no run of
two or more consecutive spaces). -/
def NoDoubleSpace (s : Str) : Prop :=
  List.Chain' (fun a b => ¬(a = ' ' ∧ b = ' ')) s

example : sanitize_sheet_name (s2l "a  b*c") [] = (s2l "a bc", [s2l "a bc"]) := by decide

example : sanitize_sheet_name (s2l "X") [s2l "X"] = (s2l "X_1", [s2l "X_1", s2l "X"]) := by
  decide

-- ------------------------ Sanitizer lemmas ------------------------

theorem mem_collapseWsAux {c : Char} :
    ∀ (l : Str) (b : Bool), c ∈ collapseWsAux b l → c = ' ' ∨ c ∈ l := by
  intro l
  induction l with
  | nil => intro b h; simp [collapseWsAux] at h
  | cons d ds ih =>
    intro b h
    simp only [collapseWsAux] at h
    by_cases hd : isPySpace d
    · simp only [hd, if_true] at h
      cases b with
      | true =>
        rcases ih true h with h1 | h1
        · exact Or.inl h1
        · exact Or.inr (List.mem_cons_of_mem _ h1)
      | false =>
        rcases List.mem_cons.mp h with h1 | h1
        · exact Or.inl h1
        · rcases ih true h1 with h2 | h2
          · exact Or.inl h2
          · exact Or.inr (List.mem_cons_of_mem _ h2)
    · simp only [hd, if_false] at h
      rcases List.mem_cons.mp h with h1 | h1
      · exact Or.inr (h1 ▸ List.mem_cons_self d ds)
      · rcases ih false h1 with h2 | h2
        · exact Or.inl h2
        · exact Or.inr (List.mem_cons_of_mem _ h2)

theorem head_collapseWsAux_true {c : Char} :
    ∀ l : Str, (collapseWsAux true l).head? = some c → isPySpace c = false := by
  intro l
  induction l with
  | nil => intro h; simp [collapseWsAux] at h
  | cons d ds ih =>
    intro h
    by_cases hd : isPySpace d
    · have he : collapseWsAux true (d :: ds) = collapseWsAux true ds := by
        simp [collapseWsAux, hd]
      rw [he] at h
      exact ih h
    · have he : collapseWsAux true (d :: ds) = d :: collapseWsAux false ds := by
        simp [collapseWsAux, hd]
      rw [he] at h
      simp only [List.head?_cons, Option.some.injEq] at h
      subst h
      simpa using hd

theorem chain_collapseWsAux :
    ∀ (l : Str) (b : Bool),
      List.Chain' (fun a c => ¬(isPySpace a = true ∧ isPySpace c = true))
        (collapseWsAux b l) := by
  intro l
  induction l with
  | nil => intro b; simp [collapseWsAux]
  | cons d ds ih =>
    intro b
    by_cases hd : isPySpace d
    · cases b with
      | true => simpa [collapseWsAux, hd] using ih true
      | false =>
        have he : collapseWsAux false (d :: ds) = ' ' :: collapseWsAux true ds := by
          simp [collapseWsAux, hd]
        rw [he, List.chain'_cons']
        refine ⟨?_, ih true⟩
        intro y hy
        have := head_collapseWsAux_true _ hy
        simp [this]
    · have he : collapseWsAux b (d :: ds) = d :: collapseWsAux false ds := by
        cases b <;> simp [collapseWsAux, hd]
      rw [he, List.chain'_cons']
      refine ⟨?_, ih false⟩
      intro y _
      simp [hd]

/-- `pyStrip` only keeps a contiguous middle part of its input. -/
theorem pyStrip_middle (s : Str) : pyStrip s <:+: s := by
  have h1 : pyStrip s <+: s.dropWhile isPySpace := by
    have := List.rdropWhile_prefix isPySpace (s.dropWhile isPySpace)
    simpa [pyStrip, List.rdropWhile] using this
  have h2 : s.dropWhile isPySpace <:+ s := List.dropWhile_suffix _
  exact h1.isInfix.trans h2.isInfix

theorem noDoubleSpace_of_chainWs {s : Str}
    (h : List.Chain' (fun a c => ¬(isPySpace a = true ∧ isPySpace c = true)) s) :
    NoDoubleSpace s := by
  refine List.Chain'.imp ?_ h
  intro a b hab
  rintro ⟨ha, hb⟩
  exact hab ⟨by simp [ha, isPySpace], by simp [hb, isPySpace]⟩

theorem sanitizeBase_noDoubleSpace (name : Str) : NoDoubleSpace (sanitizeBase name) := by
  have h0 := chain_collapseWsAux (name.filter (fun c => !isInvalidChar c)) false
  have h1 : NoDoubleSpace (collapseWs (name.filter (fun c => !isInvalidChar c))) :=
    noDoubleSpace_of_chainWs h0
  have h2 : NoDoubleSpace (pyStrip (collapseWs (name.filter (fun c => !isInvalidChar c)))) :=
    List.Chain'.infix h1 (pyStrip_middle _)
  exact h2.take 31

theorem sanitizeBase_noInvalid (name : Str) : NoInvalid (sanitizeBase name) := by
  intro c hc
  have hc1 : c ∈ pyStrip (collapseWs (name.filter (fun c => !isInvalidChar c))) :=
    List.mem_of_mem_take hc
  have hc2 : c ∈ collapseWs (name.filter (fun c => !isInvalidChar c)) :=
    List.IsInfix.mem hc1 (pyStrip_middle _)
  rcases mem_collapseWsAux _ _ hc2 with h | h
  · subst h; decide
  · have := List.of_mem_filter h
    simp only [Bool.not_eq_true'] at this
    exact this

theorem sanitizeBase_length (name : Str) : (sanitizeBase name).length ≤ 31 := by
  simp [sanitizeBase]

-- ------------------------ Decimal-suffix lemmas ------------------------

/-- Decimal digit characters. -/
def isDigitCh (c : Char) : Bool :=
  c = '0' || c = '1' || c = '2' || c = '3' || c = '4' ||
  c = '5' || c = '6' || c = '7' || c = '8' || c = '9'

/-- Value of a digit character. -/
def digitVal (c : Char) : Nat :=
  if c = '0' then 0 else if c = '1' then 1 else if c = '2' then 2
  else if c = '3' then 3 else if c = '4' then 4 else if c = '5' then 5
  else if c = '6' then 6 else if c = '7' then 7 else if c = '8' then 8 else 9

/-- Left-to-right decimal evaluation of a digit string. -/
def valFrom : Nat → Str → Nat
  | a, [] => a
  | a, c :: cs => valFrom (10 * a + digitVal c) cs

theorem isDigit_digitChar (d : Nat) : isDigitCh (digitChar d) = true := by
  rcases d with _|_|_|_|_|_|_|_|_|d <;> rfl

theorem digitVal_digitChar {d : Nat} (h : d < 10) : digitVal (digitChar d) = d := by
  interval_cases d <;> rfl

theorem natDigitsCore_eq (n : Nat) :
    ∀ f acc, n < f → natDigitsCore f n acc = natDigits n ++ acc := by
  induction n using Nat.strong_induction_on with
  | _ n ih =>
    intro f acc hf
    match f with
    | 0 => omega
    | f + 1 =>
      by_cases h10 : n < 10
      · simp [natDigitsCore, natDigits, h10]
      · have hdiv : n / 10 < n := Nat.div_lt_self (by omega) (by omega)
        have h1 : natDigitsCore (f + 1) n acc
            = natDigitsCore f (n / 10) (digitChar (n % 10) :: acc) := by
          simp [natDigitsCore, h10]
        have h2 : natDigits n = natDigits (n / 10) ++ [digitChar (n % 10)] := by
          have : natDigits n = natDigitsCore n (n / 10) [digitChar (n % 10)] := by
            simp [natDigits, natDigitsCore, h10]
          rw [this, ih _ hdiv _ _ (by omega)]
        rw [h1, ih _ hdiv _ _ (by omega), h2, List.append_assoc]
        rfl

theorem natDigits_lt_ten {n : Nat} (h : n < 10) : natDigits n = [digitChar n] := by
  simp [natDigits, natDigitsCore, h]

theorem natDigits_ge_ten {n : Nat} (h : ¬ n < 10) :
    natDigits n = natDigits (n / 10) ++ [digitChar (n % 10)] := by
  have hdiv : n / 10 < n := Nat.div_lt_self (by omega) (by omega)
  have : natDigits n = natDigitsCore n (n / 10) [digitChar (n % 10)] := by
    simp [natDigits, natDigitsCore, h]
  rw [this, natDigitsCore_eq _ _ _ (by omega)]

theorem natDigits_all_digits (n : Nat) : ∀ c ∈ natDigits n, isDigitCh c = true := by
  induction n using Nat.strong_induction_on with
  | _ n ih =>
    intro c hc
    by_cases h10 : n < 10
    · rw [natDigits_lt_ten h10] at hc
      simp only [List.mem_singleton] at hc
      subst hc
      exact isDigit_digitChar n
    · rw [natDigits_ge_ten h10] at hc
      rcases List.mem_append.mp hc with h | h
      · exact ih _ (Nat.div_lt_self (by omega) (by omega)) _ h
      · simp only [List.mem_singleton] at h
        subst h
        exact isDigit_digitChar _

theorem valFrom_append (l₁ l₂ : Str) : ∀ a, valFrom a (l₁ ++ l₂) = valFrom (valFrom a l₁) l₂ := by
  induction l₁ with
  | nil => intro a; rfl
  | cons c cs ih => intro a; simp only [List.cons_append, valFrom]; exact ih _

theorem valFrom_natDigits (n : Nat) :
    ∀ a, valFrom a (natDigits n) = a * 10 ^ (natDigits n).length + n := by
  induction n using Nat.strong_induction_on with
  | _ n ih =>
    intro a
    by_cases h10 : n < 10
    · rw [natDigits_lt_ten h10]
      simp only [valFrom, List.length_singleton, pow_one, digitVal_digitChar h10]
      ring_nf
    · have hdiv : n / 10 < n := Nat.div_lt_self (by omega) (by omega)
      rw [natDigits_ge_ten h10, valFrom_append, ih _ hdiv]
      simp only [valFrom, List.length_append, List.length_singleton]
      rw [digitVal_digitChar (Nat.mod_lt _ (by omega))]
      have : 10 * (a * 10 ^ (natDigits (n / 10)).length + n / 10) + n % 10
          = a * 10 ^ ((natDigits (n / 10)).length + 1) + (10 * (n / 10) + n % 10) := by
        ring
      rw [this, Nat.div_add_mod]

/-- Parse the maximal run of digit characters ending a string. -/
def trailingNum (l : Str) : Nat :=
  valFrom 0 ((l.reverse.takeWhile isDigitCh).reverse)

theorem takeWhile_append_of_all {p : Char → Bool} :
    ∀ l r : Str, (∀ a ∈ l, p a = true) → List.takeWhile p (l ++ r) = l ++ List.takeWhile p r := by
  intro l
  induction l with
  | nil => intro r _; rfl
  | cons c cs ih =>
    intro r h
    have hc : p c = true := h c (List.mem_cons_self _ _)
    simp only [List.cons_append, List.takeWhile_cons, hc, if_true]
    rw [ih r (fun a ha => h a (List.mem_cons_of_mem _ ha))]

theorem trailingNum_of_suffix (pref : Str) (n : Nat) :
    trailingNum (pref ++ '_' :: natDigits n) = n := by
  unfold trailingNum
  have h1 : (pref ++ '_' :: natDigits n).reverse
      = (natDigits n).reverse ++ '_' :: pref.reverse := by
    simp
  rw [h1, takeWhile_append_of_all _ _ (by
    intro a ha
    exact natDigits_all_digits n a (List.mem_reverse.mp ha))]
  have h2 : List.takeWhile isDigitCh ('_' :: pref.reverse) = [] := by
    simp [List.takeWhile_cons, isDigitCh]
  rw [h2, List.append_nil, List.reverse_reverse]
  have := valFrom_natDigits n 0
  simpa using this

theorem candidateName_eq_append (base : Str) (c : Nat) :
    ∃ pref, candidateName base c = pref ++ '_' :: natDigits c := by
  simp only [candidateName, suffixFor]
  by_cases h : 31 < base.length + ('_' :: natDigits c).length
  · exact ⟨pySliceTo base (31 - (('_' :: natDigits c).length : Int)), by rw [if_pos h]⟩
  · exact ⟨base, by rw [if_neg h]⟩

theorem trailingNum_candidateName (base : Str) (c : Nat) :
    trailingNum (candidateName base c) = c := by
  obtain ⟨pref, hp⟩ := candidateName_eq_append base c
  rw [hp, trailingNum_of_suffix]

theorem candidateName_injective (base : Str) : Function.Injective (candidateName base) := by
  intro c₁ c₂ h
  have := congrArg trailingNum h
  rwa [trailingNum_candidateName, trailingNum_candidateName] at this

-- ------------------------ Candidate-name properties ------------------------

theorem natDigits_length_le (n : Nat) :
    ∀ k, 0 < k → n < 10 ^ k → (natDigits n).length ≤ k := by
  induction n using Nat.strong_induction_on with
  | _ n ih =>
    intro k hk hn
    by_cases h10 : n < 10
    · rw [natDigits_lt_ten h10]
      simpa using hk
    · have hdiv : n / 10 < n := Nat.div_lt_self (by omega) (by omega)
      have hk2 : 2 ≤ k := by
        by_contra hcon
        have : k = 1 := by omega
        subst this
        simp at hn
        omega
      rw [natDigits_ge_ten h10]
      have hq : n / 10 < 10 ^ (k - 1) := by
        have h1 : 10 ^ k = 10 ^ (k - 1) * 10 := by
          have : k - 1 + 1 = k := by omega
          rw [← this, pow_succ]
          simp
        apply Nat.div_lt_of_lt_mul
        omega
      have := ih _ hdiv (k - 1) (by omega) hq
      simp only [List.length_append, List.length_singleton]
      omega

theorem natDigits_length_pow : ∀ k, (natDigits (10 ^ k)).length = k + 1 := by
  intro k
  induction k with
  | zero => rfl
  | succ k ih =>
    have h10 : ¬ 10 ^ (k + 1) < 10 := by
      have : 10 ^ 1 ≤ 10 ^ (k + 1) := Nat.pow_le_pow_right (by omega) (by omega)
      simpa using this
    rw [natDigits_ge_ten h10]
    have hdiv : 10 ^ (k + 1) / 10 = 10 ^ k := by
      rw [pow_succ]
      exact Nat.mul_div_cancel _ (by omega)
    rw [hdiv]
    simp only [List.length_append, List.length_singleton, ih]

theorem candidateName_length {base : Str} {c : Nat}
    (hc : c < 10 ^ 30) : (candidateName base c).length ≤ 31 := by
  have hsuf : (suffixFor c).length ≤ 31 := by
    have := natDigits_length_le c 30 (by omega) hc
    simp only [suffixFor, List.length_cons]
    omega
  unfold candidateName
  by_cases h : 31 < base.length + (suffixFor c).length
  · rw [if_pos h]
    simp only [List.length_append, pySliceTo]
    have hpos : (0 : Int) ≤ 31 - ((suffixFor c).length : Int) := by omega
    rw [if_pos hpos]
    have htk : (List.take (Int.toNat (31 - ((suffixFor c).length : Int))) base).length
        ≤ Int.toNat (31 - ((suffixFor c).length : Int)) := by
      simp
    omega
  · rw [if_neg h]
    simp only [List.length_append]
    omega

theorem digit_cases {c : Char} (h : isDigitCh c = true) :
    c = '0' ∨ c = '1' ∨ c = '2' ∨ c = '3' ∨ c = '4' ∨
    c = '5' ∨ c = '6' ∨ c = '7' ∨ c = '8' ∨ c = '9' := by
  simp only [isDigitCh, Bool.or_eq_true, decide_eq_true_eq] at h
  tauto

theorem not_invalid_of_digit {c : Char} (h : isDigitCh c = true) : isInvalidChar c = false := by
  rcases digit_cases h with h|h|h|h|h|h|h|h|h|h <;> subst h <;> rfl

theorem digit_ne_space {c : Char} (h : isDigitCh c = true) : c ≠ ' ' := by
  rcases digit_cases h with h|h|h|h|h|h|h|h|h|h <;> subst h <;> decide

theorem mem_candidateName {x : Char} {base : Str} {c : Nat}
    (hx : x ∈ candidateName base c) : x ∈ base ∨ x = '_' ∨ isDigitCh x = true := by
  obtain ⟨pref, hp⟩ := candidateName_eq_append base c
  have hpref : ∀ y ∈ pref, y ∈ base ∨ y = '_' ∨ isDigitCh y = true := by
    intro y hy
    unfold candidateName at hp
    by_cases h : 31 < base.length + (suffixFor c).length
    · rw [if_pos h] at hp
      have : pref = pySliceTo base (31 - ((suffixFor c).length : Int)) := by
        have := List.append_inj_left' hp ?_
        · exact this.symm
        · simp [suffixFor]
      subst this
      exact Or.inl (List.mem_of_mem_take hy)
    · rw [if_neg h] at hp
      have : pref = base := by
        have := List.append_inj_left' hp ?_
        · exact this.symm
        · simp [suffixFor]
      subst this
      exact Or.inl hy
  rw [hp] at hx
  rcases List.mem_append.mp hx with h | h
  · exact hpref x h
  · rcases List.mem_cons.mp h with h1 | h1
    · exact Or.inr (Or.inl h1)
    · exact Or.inr (Or.inr (natDigits_all_digits c x h1))

theorem candidateName_noInvalid {base : Str} (hb : NoInvalid base) (c : Nat) :
    NoInvalid (candidateName base c) := by
  intro x hx
  rcases mem_candidateName hx with h | h | h
  · exact hb x h
  · subst h; rfl
  · exact not_invalid_of_digit h

theorem noDoubleSpace_of_no_space {l : Str} (h : ∀ x ∈ l, x ≠ ' ') : NoDoubleSpace l := by
  induction l with
  | nil => exact List.chain'_nil
  | cons c cs ih =>
    rw [NoDoubleSpace, List.chain'_cons']
    constructor
    · intro y _
      rintro ⟨hc, _⟩
      exact h c (List.mem_cons_self _ _) hc
    · exact ih (fun x hx => h x (List.mem_cons_of_mem _ hx))

theorem candidateName_noDoubleSpace {base : Str} (hb : NoDoubleSpace base) (c : Nat) :
    NoDoubleSpace (candidateName base c) := by
  have hsuffix : NoDoubleSpace ('_' :: natDigits c) := by
    apply noDoubleSpace_of_no_space
    intro x hx
    rcases List.mem_cons.mp hx with h | h
    · subst h; decide
    · exact digit_ne_space (natDigits_all_digits c x h)
  have hpref : ∀ pref : Str, (pref <+: base) →
      NoDoubleSpace (pref ++ '_' :: natDigits c) := by
    intro pref hpre
    rw [NoDoubleSpace, List.chain'_append]
    refine ⟨ List.Chain'.prefix hb hpre, hsuffix, ?_⟩
    intro x _ y hy
    simp only [List.head?_cons, Option.mem_def, Option.some.injEq] at hy
    rintro ⟨_, hy2⟩
    rw [← hy] at hy2
    exact absurd hy2 (by decide)
  unfold candidateName suffixFor
  by_cases h : 31 < base.length + ('_' :: natDigits c).length
  · rw [if_pos h]
    exact hpref _ (List.take_prefix _ _)
  · rw [if_neg h]
    exact hpref base List.prefix_rfl

-- ------------------------ Uniqueness-loop lemmas ------------------------

theorem exists_free_candidate (base : Str) (S : List Str) :
    ∃ j, j < S.length + 1 ∧ candidateName base (1 + j) ∉ S := by
  by_contra hcon
  push_neg at hcon
  have hinj : Function.Injective (fun j : Nat => candidateName base (1 + j)) := by
    intro a b hab
    have := candidateName_injective base hab
    omega
  set l := (List.range (S.length + 1)).map (fun j => candidateName base (1 + j)) with hl
  have hn : l.Nodup := (List.nodup_range _).map hinj
  have hsub : l.toFinset ⊆ S.toFinset := by
    intro x hx
    rw [List.mem_toFinset] at hx ⊢
    rw [hl, List.mem_map] at hx
    obtain ⟨j, hj, hje⟩ := hx
    rw [List.mem_range] at hj
    exact hje ▸ hcon j hj
  have h1 : l.toFinset.card = S.length + 1 := by
    rw [List.toFinset_card_of_nodup hn, hl, List.length_map, List.length_range]
  have h2 : S.toFinset.card ≤ S.length := List.toFinset_card_le S
  have := Finset.card_le_card hsub
  omega

theorem uniquifyAux_spec (base : Str) (S : List Str) :
    ∀ fuel counter, (∃ j, j < fuel ∧ candidateName base (counter + j) ∉ S) →
      ∃ c, counter ≤ c ∧ c < counter + fuel ∧
        uniquifyAux base S counter fuel = candidateName base c ∧
        candidateName base c ∉ S := by
  intro fuel
  induction fuel with
  | zero =>
    intro counter h
    obtain ⟨j, hj, _⟩ := h
    omega
  | succ fuel ih =>
    intro counter h
    by_cases hc : candidateName base counter ∈ S
    · obtain ⟨j, hj, hfree⟩ := h
      have hj0 : j ≠ 0 := by
        intro h0
        subst h0
        simp only [Nat.add_zero] at hfree
        exact hfree hc
      obtain ⟨j', rfl⟩ : ∃ j', j = j' + 1 := ⟨j - 1, by omega⟩
      have hstep : uniquifyAux base S counter (fuel + 1)
          = uniquifyAux base S (counter + 1) fuel := by
        simp [uniquifyAux, hc]
      obtain ⟨c, hc1, hc2, hc3, hc4⟩ := ih (counter + 1)
        ⟨j', by omega, by
          have : counter + 1 + j' = counter + (j' + 1) := by omega
          rw [this]
          exact hfree⟩
      exact ⟨c, by omega, by omega, hstep ▸ hc3, hc4⟩
    · refine ⟨counter, le_refl _, by omega, ?_, hc⟩
      simp [uniquifyAux, hc]

/-- The sanitizer result in closed form: either the base name (when free),
or the first free suffixed candidate, whose counter never exceeds the
registry size plus one. -/
theorem sanitize_sheet_name_cases (name : Str) (S : List Str) :
    (sanitize_sheet_name name S).2 = (sanitize_sheet_name name S).1 :: S ∧
    (sanitize_sheet_name name S).1 ∉ S ∧
    ((sanitize_sheet_name name S).1 = sanitizeBase name ∨
      ∃ c, 1 ≤ c ∧ c ≤ S.length + 1 ∧
        (sanitize_sheet_name name S).1 = candidateName (sanitizeBase name) c) := by
  by_cases hb : sanitizeBase name ∈ S
  · obtain ⟨j, hj, hfree⟩ := exists_free_candidate (sanitizeBase name) S
    obtain ⟨c, hc1, hc2, hc3, hc4⟩ :=
      uniquifyAux_spec (sanitizeBase name) S (S.length + 1) 1 ⟨j, hj, hfree⟩
    have hres : (sanitize_sheet_name name S).1
        = uniquifyAux (sanitizeBase name) S 1 (S.length + 1) := by
      simp [sanitize_sheet_name, hb]
    refine ⟨rfl, ?_, Or.inr ⟨c, hc1, by omega, ?_⟩⟩
    · rw [hres, hc3]; exact hc4
    · rw [hres, hc3]
  · have hres : (sanitize_sheet_name name S).1 = sanitizeBase name := by
      simp [sanitize_sheet_name, hb]
    exact ⟨rfl, hres ▸ hb, Or.inl hres⟩

theorem sanitize_result_not_mem (name : Str) (S : List Str) :
    (sanitize_sheet_name name S).1 ∉ S :=
  (sanitize_sheet_name_cases name S).2.1

theorem runSanitize_not_mem :
    ∀ (names S : List Str) (x : Str), x ∈ runSanitize names S → x ∉ S := by
  intro names
  induction names with
  | nil => intro S x h; simp [runSanitize] at h
  | cons n ns ih =>
    intro S x h hxS
    simp only [runSanitize] at h
    rcases List.mem_cons.mp h with h1 | h1
    · exact sanitize_result_not_mem n S (h1 ▸ hxS)
    · have h3 := ih _ x h1
      rw [(sanitize_sheet_name_cases n S).1] at h3
      exact h3 (List.mem_cons_of_mem _ hxS)

theorem runSanitize_nodup : ∀ (names S : List Str), (runSanitize names S).Nodup := by
  intro names
  induction names with
  | nil => intro S; simp [runSanitize]
  | cons n ns ih =>
    intro S
    simp only [runSanitize]
    rw [List.nodup_cons]
    refine ⟨?_, ih _⟩
    intro hmem
    have := runSanitize_not_mem ns _ _ hmem
    rw [(sanitize_sheet_name_cases n S).1] at this
    exact this (List.mem_cons_self _ _)

theorem uniquifyAux_advance (base : Str) (S : List Str) :
    ∀ (k counter fuel : Nat), k ≤ fuel →
      (∀ j, j < k → candidateName base (counter + j) ∈ S) →
      uniquifyAux base S counter fuel = uniquifyAux base S (counter + k) (fuel - k) := by
  intro k
  induction k with
  | zero => intro counter fuel _ _; simp
  | succ k ih =>
    intro counter fuel hk hmem
    obtain ⟨f, rfl⟩ : ∃ f, fuel = f + 1 := ⟨fuel - 1, by omega⟩
    have h0 : candidateName base counter ∈ S := by
      have := hmem 0 (by omega)
      simpa using this
    have hstep : uniquifyAux base S counter (f + 1)
        = uniquifyAux base S (counter + 1) f := by
      simp [uniquifyAux, h0]
    rw [hstep, ih (counter + 1) f (by omega) (fun j hj => by
      have := hmem (j + 1) (by omega)
      have he : counter + (j + 1) = counter + 1 + j := by omega
      rwa [he] at this)]
    congr 1
    · omega
    · omega

-- ------------------------ A registry that overflows the 31-char bound ----

/-- A (mathematically well-defined, astronomically large) registry that
already contains the base name and the first `10^30 - 1` suffixed
candidates for it. -/
def bigRegistry : List Str :=
  s2l "C" :: (List.range (10 ^ 30 - 1)).map (fun j => candidateName (s2l "C") (j + 1))

theorem bigRegistry_length : bigRegistry.length = 10 ^ 30 := by
  rw [bigRegistry, List.length_cons, List.length_map, List.length_range]
  norm_num

theorem mem_bigRegistry_of_le {c : Nat} (h1 : 1 ≤ c) (h2 : c ≤ 10 ^ 30 - 1) :
    candidateName (s2l "C") c ∈ bigRegistry := by
  apply List.mem_cons_of_mem
  rw [List.mem_map]
  exact ⟨c - 1, by rw [List.mem_range]; omega, by congr 1; omega⟩

theorem sanitize_sheet_name_of_mem {name : Str} {S : List Str}
    (h : sanitizeBase name ∈ S) :
    (sanitize_sheet_name name S).1
      = uniquifyAux (sanitizeBase name) S 1 (S.length + 1) := by
  simp [sanitize_sheet_name, h]

theorem uniquifyAux_step_not_mem (base : Str) (S : List Str) (counter fuel : Nat)
    (h : candidateName base counter ∉ S) :
    uniquifyAux base S counter (fuel + 1) = candidateName base counter := by
  simp [uniquifyAux, h]

theorem candidateName_big_length : (candidateName (s2l "C") (10 ^ 30)).length = 32 := by
  have hdig : (natDigits (10 ^ 30)).length = 31 := natDigits_length_pow 30
  have hsuf : (suffixFor (10 ^ 30)).length = 32 := by
    simp only [suffixFor, List.length_cons, hdig]
  unfold candidateName
  rw [if_pos (by rw [hsuf]; decide)]
  rw [List.length_append, hsuf]
  have hslice : (pySliceTo (s2l "C") (31 - ((32 : Nat) : Int))).length = 0 := by decide
  rw [hslice]

theorem not_mem_bigRegistry : candidateName (s2l "C") (10 ^ 30) ∉ bigRegistry := by
  intro hmem
  have hlen := candidateName_big_length
  rcases List.mem_cons.mp hmem with h | h
  · rw [h] at hlen
    simp [s2l] at hlen
  · rw [List.mem_map] at h
    obtain ⟨j, hj, hje⟩ := h
    rw [List.mem_range] at hj
    have hb : (candidateName (s2l "C") (j + 1)).length ≤ 31 :=
      candidateName_length (by omega)
    rw [hje] at hb
    omega

theorem sanitize_big : (sanitize_sheet_name (s2l "C") bigRegistry).1
    = candidateName (s2l "C") (10 ^ 30) := by
  have hbase : sanitizeBase (s2l "C") = s2l "C" := by decide
  have hmem : sanitizeBase (s2l "C") ∈ bigRegistry := by
    rw [hbase]
    exact List.mem_cons_self _ _
  rw [sanitize_sheet_name_of_mem hmem, hbase, bigRegistry_length]
  have hadv := uniquifyAux_advance (s2l "C") bigRegistry (10 ^ 30 - 1) 1 (10 ^ 30 + 1)
    (by omega)
    (fun j hj => by
      have : (1 : Nat) + j = j + 1 := by omega
      rw [this]
      exact mem_bigRegistry_of_le (by omega) (by omega))
  rw [hadv]
  have hc : 1 + (10 ^ 30 - 1) = 10 ^ 30 := by omega
  have hf : 10 ^ 30 + 1 - (10 ^ 30 - 1) = 2 := by omega
  rw [hc, hf]
  have h2 : (2 : Nat) = 1 + 1 := rfl
  rw [h2, uniquifyAux_step_not_mem _ _ _ _ not_mem_bigRegistry]

-- ------------------------ Claim C3 ------------------------

/-- C3 counterexample: the claim asserts that for EVERY registry state the
returned name has length at most 31.  On the (astronomically large, but
well-defined) registry holding the base name and the first `10^30 - 1`
suffixed candidates, the uniqueness loop of `sanitize_sheet_name` reaches
counter `10^30`, whose suffix `_1000...0` is 32 characters long; the Python
slice `original_sanitized[:31 - len(suffix)]` then has a negative bound and
the returned name has length 32. -/
theorem c3_counterexample :
    ¬ ((sanitize_sheet_name (s2l "C") bigRegistry).1.length ≤ 31) := by
  rw [sanitize_big, candidateName_big_length]
  omega

/-- C3 (amended): for every input string and every registry state
whatsoever, the returned name contains none of the characters removed by
the sanitizer regex, has no run of two or more consecutive spaces, is not
already registered, and across any sequence of calls sharing one registry
all returned names are pairwise distinct; the 31-character length bound
additionally holds whenever the registry holds fewer than `10^30 - 1`
names. -/
theorem c3_sanitize_spec (name : Str) (S : List Str) :
    (sanitize_sheet_name name S).1 ∉ S ∧
    NoInvalid (sanitize_sheet_name name S).1 ∧
    NoDoubleSpace (sanitize_sheet_name name S).1 ∧
    (∀ names : List Str, (runSanitize names S).Nodup) ∧
    (S.length + 1 < 10 ^ 30 → (sanitize_sheet_name name S).1.length ≤ 31) := by
  obtain ⟨_, hnot, hcase⟩ := sanitize_sheet_name_cases name S
  refine ⟨hnot, ?_, ?_, fun names => runSanitize_nodup names S, ?_⟩
  · rcases hcase with h | ⟨c, _, _, h⟩
    · rw [h]; exact sanitizeBase_noInvalid name
    · rw [h]; exact candidateName_noInvalid (sanitizeBase_noInvalid name) c
  · rcases hcase with h | ⟨c, _, _, h⟩
    · rw [h]; exact sanitizeBase_noDoubleSpace name
    · rw [h]; exact candidateName_noDoubleSpace (sanitizeBase_noDoubleSpace name) c
  · intro hS
    rcases hcase with h | ⟨c, _, hc2, h⟩
    · rw [h]; exact sanitizeBase_length name
    · rw [h]; exact candidateName_length (by omega)

/-- C3 witness: the amended theorem applied at a concrete name and a
concrete one-element registry, with the length conjunct's registry-size
hypothesis discharged there. -/
theorem c3_sanitize_spec_witness :
    (sanitize_sheet_name (s2l "a/b") [s2l "ab"]).1 ∉ ([s2l "ab"] : List Str) ∧
    ([s2l "ab"] : List Str).length + 1 < 10 ^ 30 ∧
    (sanitize_sheet_name (s2l "a/b") [s2l "ab"]).1.length ≤ 31 :=
  ⟨(c3_sanitize_spec (s2l "a/b") [s2l "ab"]).1, by norm_num,
   (c3_sanitize_spec (s2l "a/b") [s2l "ab"]).2.2.2.2 (by norm_num)⟩

-- ------------------------ Country normalizer ------------------------

/-- One entry of the country lookup table used by
`pycountry.countries.lookup`: a canonical English name together with the
set of lookup keys (lowercased name, aliases, codes) that resolve to it.
The table itself is third-party data, so it is kept abstract here. -/
structure CountryEntry where
  cname : Str
  keys : List Str
deriving DecidableEq

/-- Python `str.lower()` (ASCII view, as used for table keys). -/
def pyLower (s : Str) : Str := s.map Char.toLower

/-- `pycountry.countries.lookup(q)`: case-insensitive key lookup, `none`
modelling the `LookupError`. -/
def countriesLookup (table : List CountryEntry) (q : Str) : Option CountryEntry :=
  table.find? (fun e => decide (pyLower q ∈ e.keys))

/-- `get_standard_country_name` (lines 97-110): return the canonical name
on success, the input unchanged on `LookupError`. -/
def get_standard_country_name (table : List CountryEntry) (q : Str) : Str :=
  match countriesLookup table q with
  | some e => e.cname
  | none => q

/-- A table is self-canonical when looking up the canonical name of any of
its entries yields an entry carrying that same canonical name (true of the
ISO 3166 data behind pycountry, whose name column is a key and is
duplicate-free). -/
abbrev SelfCanonical (table : List CountryEntry) : Prop :=
  ∀ e ∈ table, ∀ e2 ∈ table, countriesLookup table e.cname = some e2 → e2.cname = e.cname

/-- C8: canonicalizing country names is idempotent — `normalize(normalize x)
equals normalize x` — where normalize looks the string up in the country
table and passes it through unchanged on lookup failure.  Proved for every
self-canonical table. -/
theorem c8_normalize_idempotent (table : List CountryEntry)
    (hself : SelfCanonical table) (q : Str) :
    get_standard_country_name table (get_standard_country_name table q)
      = get_standard_country_name table q := by
  unfold get_standard_country_name
  cases h1 : countriesLookup table q with
  | none => rw [h1]
  | some e =>
    have he : e ∈ table := List.mem_of_find?_eq_some h1
    cases h2 : countriesLookup table e.cname with
    | none => rfl
    | some e2 => exact hself e he e2 (List.mem_of_find?_eq_some h2) h2

/-- C8 witness: idempotence at a concrete two-entry table and a concrete
alias query. -/
theorem c8_normalize_idempotent_witness :
    SelfCanonical
      [⟨s2l "Switzerland", [s2l "switzerland", s2l "ch", s2l "che"]⟩,
       ⟨s2l "United States", [s2l "united states", s2l "us", s2l "usa"]⟩] ∧
    get_standard_country_name
      [⟨s2l "Switzerland", [s2l "switzerland", s2l "ch", s2l "che"]⟩,
       ⟨s2l "United States", [s2l "united states", s2l "us", s2l "usa"]⟩]
      (get_standard_country_name
        [⟨s2l "Switzerland", [s2l "switzerland", s2l "ch", s2l "che"]⟩,
         ⟨s2l "United States", [s2l "united states", s2l "us", s2l "usa"]⟩]
        (s2l "CH"))
      = get_standard_country_name
          [⟨s2l "Switzerland", [s2l "switzerland", s2l "ch", s2l "che"]⟩,
           ⟨s2l "United States", [s2l "united states", s2l "us", s2l "usa"]⟩]
          (s2l "CH") :=
  ⟨by decide, c8_normalize_idempotent _ (by decide) (s2l "CH")⟩

-- ------------------------ Geocoding ------------------------

/-- Whether `sep` occurs as a contiguous subsequence of the string. -/
def containsSeq (sep : Str) : Str → Bool
  | [] => sep.isEmpty
  | c :: cs => sep.isPrefixOf (c :: cs) || containsSeq sep cs

/-- Fueled worker for `lastSegAfter`; each step consumes at least one
input character, so the fuel used below is always sufficient. -/
def lastSegAfterGo (sep : Str) : Nat → Str → Str
  | 0, l => l
  | _, [] => []
  | fuel + 1, c :: cs =>
    if sep.isPrefixOf (c :: cs) then lastSegAfterGo sep fuel (List.drop (sep.length - 1) cs)
    else if containsSeq sep cs then lastSegAfterGo sep fuel cs
    else c :: cs

/-- Python `l.split(sep)[-1]` for a nonempty separator: the text after the
last occurrence of `sep` in the greedy left-to-right decomposition, or all
of `l` when `sep` does not occur. -/
def lastSegAfter (sep l : Str) : Str := lastSegAfterGo sep (l.length + 1) l

example : lastSegAfter [':'] (s2l "Job ID: 12345") = s2l " 12345" := by decide

example : lastSegAfter (s2l "Duty Station :") (s2l "Duty Station : Geneva, Switzerland")
    = s2l " Geneva, Switzerland" := by decide

/-- Outcome of one `geolocator.geocode` call as observed by
`geocode_city`: a formatted address, no result (`None`), or one of the two
caught geopy exceptions. -/
inductive GeoReply where
  | address (a : Str)
  | noResult
  | timedOut
  | serviceError
deriving DecidableEq

/-- `geocode_city` (lines 457-478): the country is the trimmed text after
the final comma of the formatted address, standardized; a missing or empty
address, a timeout, or a service error yields the sentinel. -/
def geocode_city (table : List CountryEntry) (behav : Str → GeoReply) (city : Str) :
    Str × Str :=
  match behav city with
  | .address a =>
    if a = [] then (city, s2l "Unknown")
    else (city, get_standard_country_name table (pyStrip (lastSegAfter [','] a)))
  | .noResult => (city, s2l "Unknown")
  | .timedOut => (city, s2l "Unknown")
  | .serviceError => (city, s2l "Unknown")

/-- `geocode_cities` (lines 480-495): the merged city-to-country mapping,
as an association list keyed by the input cities.  (The thread pool only
affects completion order; the merged dict is keyed by city and the
per-future exception handler is subsumed by `geocode_city` being total.) -/
def geocode_cities (table : List CountryEntry) (behav : Str → GeoReply)
    (cities : List Str) : List (Str × Str) :=
  cities.map (geocode_city table behav)

/-- Python `dict.get(k, dflt)` over an association list. -/
def dictLookup (d : List (Str × Str)) (k dflt : Str) : Str :=
  match d.find? (fun p => decide (p.1 = k)) with
  | some p => p.2
  | none => dflt

theorem geocode_city_fst (table : List CountryEntry) (behav : Str → GeoReply)
    (city : Str) : (geocode_city table behav city).1 = city := by
  cases h : behav city <;> simp [geocode_city, h]
  split <;> rfl

theorem dictLookup_geocode (table : List CountryEntry) (behav : Str → GeoReply) :
    ∀ (cities : List Str) (c : Str), c ∈ cities →
      dictLookup (geocode_cities table behav cities) c (s2l "Unknown")
        = (geocode_city table behav c).2 := by
  intro cities
  induction cities with
  | nil => intro c hc; simp at hc
  | cons c0 cs ih =>
    intro c hc
    by_cases he : c0 = c
    · subst he
      simp [geocode_cities, dictLookup, List.find?_cons, geocode_city_fst]
    · have hc2 : c ∈ cs := by
        rcases List.mem_cons.mp hc with h | h
        · exact absurd h.symm he
        · exact h
      have hne : ((geocode_city table behav c0).1 = c) = False := by
        simp [geocode_city_fst, he]
      simp only [geocode_cities, List.map_cons, dictLookup, List.find?_cons, hne,
        decide_False]
      exact ih c hc2

/-- C6: for every set of city strings the batch geocode call returns a
mapping keyed by exactly those cities and never raises: the empty input
yields the empty mapping, a city whose lookup times out, hits a service
error, or returns no result maps to the sentinel, and the mapping at every
other city does not depend on that city's behaviour. -/
theorem c6_geocode_cities_spec (table : List CountryEntry) (behav : Str → GeoReply)
    (cities : List Str) :
    geocode_cities table behav [] = [] ∧
    (geocode_cities table behav cities).map Prod.fst = cities ∧
    (∀ c ∈ cities,
      (behav c = .noResult ∨ behav c = .timedOut ∨ behav c = .serviceError) →
      dictLookup (geocode_cities table behav cities) c (s2l "Unknown") = s2l "Unknown") ∧
    (∀ behav2 : Str → GeoReply, ∀ c x : Str,
      (∀ y, y ≠ c → behav2 y = behav y) → x ∈ cities → x ≠ c →
      dictLookup (geocode_cities table behav2 cities) x (s2l "Unknown")
        = dictLookup (geocode_cities table behav cities) x (s2l "Unknown")) := by
  refine ⟨rfl, ?_, ?_, ?_⟩
  · rw [geocode_cities, List.map_map]
    have : (Prod.fst ∘ geocode_city table behav) = id := by
      funext c
      exact geocode_city_fst table behav c
    rw [this, List.map_id]
  · intro c hc hb
    rw [dictLookup_geocode table behav cities c hc]
    rcases hb with h | h | h <;> simp [geocode_city, h]
  · intro behav2 c x hagree hx hne
    rw [dictLookup_geocode table behav cities x hx,
      dictLookup_geocode table behav2 cities x hx]
    unfold geocode_city
    rw [hagree x hne]

/-- Concrete geocode behaviour used by the C6 witness. -/
def behavC6 : Str → GeoReply :=
  fun s => if s = s2l "Rome" then .serviceError else .address (s2l "Oslo, Norway")

/-- C6 witness: the theorem applied at a concrete table, behaviour and city
set; the failing city resolves to the sentinel. -/
theorem c6_geocode_cities_spec_witness :
    dictLookup (geocode_cities [] behavC6 [s2l "Rome", s2l "Oslo"]) (s2l "Rome")
      (s2l "Unknown") = s2l "Unknown" :=
  (c6_geocode_cities_spec [] behavC6 [s2l "Rome", s2l "Oslo"]).2.2.1
    (s2l "Rome") (by decide) (by decide)

-- ------------------------ Page extraction ------------------------

def BASE_SITE_URL : Str := s2l "https://careers.un.org"

/-- One job record (the flat dictionary built by `extract_job_details`,
with the Country slot that `save_to_excel` fills in later). -/
structure Record where
  title : Str
  jobId : Str
  jobNetwork : Str
  jobFamily : Str
  catLevel : Str
  dutyStation : Str
  city : Str
  country : Str
  deptOffice : Str
  datePosted : Str
  deadline : Str
  link : Str
deriving DecidableEq

/-- What reading the description link anchor can yield: the element is
missing (`NoSuchElementException`, caught: empty link), its href attribute
is `None` (`.startswith` then raises, so the whole card is dropped by the
outer handler), or an href string. -/
inductive LinkOutcome where
  | noElement
  | nullHref
  | href (h : Str)
deriving DecidableEq

/-- One rendered job card, as the element lookups inside
`extract_job_details` observe it; `none` in a field models the lookup or
text access raising. -/
structure Card where
  titleText : Option Str
  jobIdText : Option Str
  bodyLines : Option (List Str)
  linkHref : LinkOutcome
deriving DecidableEq

/-- The freshly initialized `job_details` dictionary (lines 298-311). -/
def emptyDetails (t jid : Str) : Record :=
  { title := t, jobId := jid, jobNetwork := [], jobFamily := [], catLevel := [],
    dutyStation := [], city := [], country := [], deptOffice := [], datePosted := [],
    deadline := [], link := [] }

/-- City from Duty Station (lines 325-331): the trimmed text before the
first comma when one is present, the whole string otherwise.  (The local
`location_query` variable of the source is dead code; geocoding later keys
on the City field.) -/
def cityFromDuty (ds : Str) : Str :=
  if ',' ∈ ds then pyStrip (ds.takeWhile (fun c => !decide (c = ','))) else ds

/-- The `for line in body_text` elif chain (lines 314-338). -/
def processLine (jd : Record) (line : Str) : Record :=
  if containsSeq (s2l "Job Network") line then
    { jd with jobNetwork := pyStrip (lastSegAfter (s2l "Job Network :") line) }
  else if containsSeq (s2l "Job Family") line then
    { jd with jobFamily := pyStrip (lastSegAfter (s2l "Job Family :") line) }
  else if containsSeq (s2l "Category and Level") line then
    { jd with catLevel := pyStrip (lastSegAfter (s2l "Category and Level :") line) }
  else if containsSeq (s2l "Duty Station") line then
    let duty_station := pyStrip (lastSegAfter (s2l "Duty Station :") line)
    { jd with dutyStation := duty_station, city := cityFromDuty duty_station }
  else if containsSeq (s2l "Department/Office") line then
    { jd with deptOffice := pyStrip (lastSegAfter (s2l "Department/Office :") line) }
  else if containsSeq (s2l "Date Posted") line then
    { jd with datePosted := pyStrip (lastSegAfter (s2l "Date Posted :") line) }
  else if containsSeq (s2l "Deadline") line then
    { jd with deadline := pyStrip (lastSegAfter (s2l "Deadline :") line) }
  else jd

/-- `extract_job_details` (lines 278-358): `none` models the
`except Exception: return None` path. -/
def extract_job_details (card : Card) : Option Record :=
  match card.titleText, card.jobIdText, card.bodyLines with
  | some t, some idt, some lines =>
    let job_id := pyStrip (lastSegAfter [':'] idt)
    let jd := lines.foldl processLine (emptyDetails (pyStrip t) job_id)
    match card.linkHref with
    | .nullHref => none
    | .noElement => some { jd with link := [] }
    | .href h =>
      some { jd with link := if h.head? = some '/' then BASE_SITE_URL ++ h else h }
  | _, _, _ => none

/-- The records appended by the per-card loop of `get_internship_data`
(lines 432-438): a card whose extraction returns `None` is skipped. -/
def pageRecords (cards : List Card) : List Record :=
  cards.filterMap extract_job_details

/-- The relation between the City and Duty Station fields that extraction
maintains. -/
def CityDutyOk (jd : Record) : Prop := jd.city = cityFromDuty jd.dutyStation

theorem processLine_cityDutyOk {jd : Record} (h : CityDutyOk jd) (line : Str) :
    CityDutyOk (processLine jd line) := by
  unfold processLine
  rw [CityDutyOk] at h
  split_ifs <;> simp [CityDutyOk, h]

theorem foldl_processLine_cityDutyOk :
    ∀ (lines : List Str) (jd : Record), CityDutyOk jd →
      CityDutyOk (lines.foldl processLine jd) := by
  intro lines
  induction lines with
  | nil => intro jd h; exact h
  | cons l ls ih => intro jd h; exact ih _ (processLine_cityDutyOk h l)

theorem extract_cityDutyOk {card : Card} {r : Record}
    (h : extract_job_details card = some r) : CityDutyOk r := by
  unfold extract_job_details at h
  cases ht : card.titleText with
  | none => rw [ht] at h; exact absurd h (by simp)
  | some t =>
    cases hi : card.jobIdText with
    | none => rw [ht, hi] at h; exact absurd h (by simp)
    | some idt =>
      cases hb : card.bodyLines with
      | none => rw [ht, hi, hb] at h; exact absurd h (by simp)
      | some lines =>
        rw [ht, hi, hb] at h
        have hfold : CityDutyOk (lines.foldl processLine
            (emptyDetails (pyStrip t) (pyStrip (lastSegAfter [':'] idt)))) :=
          foldl_processLine_cityDutyOk lines _ (by simp [CityDutyOk, emptyDetails, cityFromDuty])
        cases hl : card.linkHref with
        | nullHref => rw [hl] at h; exact absurd h (by simp)
        | noElement =>
          rw [hl] at h
          simp only [Option.some.injEq] at h
          rw [← h]
          simpa [CityDutyOk] using hfold
        | href s =>
          rw [hl] at h
          simp only [Option.some.injEq] at h
          rw [← h]
          simpa [CityDutyOk] using hfold

/-- First-occurrence deduplication: the iteration order of the distinct
values, as a Python dict built by insertion preserves it. -/
def firstOccs : List Str → List Str
  | [] => []
  | c :: cs => c :: (firstOccs cs).filter (fun x => !decide (x = c))

theorem mem_firstOccs : ∀ (l : List Str) (x : Str), x ∈ firstOccs l ↔ x ∈ l := by
  intro l
  induction l with
  | nil => intro x; rfl
  | cons c cs ih =>
    intro x
    simp only [firstOccs, List.mem_cons, List.mem_filter, ih, Bool.not_eq_true',
      decide_eq_false_iff_not]
    constructor
    · rintro (h | ⟨h, _⟩)
      · exact Or.inl h
      · exact Or.inr h
    · rintro (h | h)
      · exact Or.inl h
      · by_cases he : x = c
        · exact Or.inl he
        · exact Or.inr ⟨h, he⟩

theorem nodup_firstOccs : ∀ l : List Str, (firstOccs l).Nodup := by
  intro l
  induction l with
  | nil => exact List.nodup_nil
  | cons c cs ih =>
    rw [firstOccs, List.nodup_cons]
    refine ⟨?_, ih.filter _⟩
    intro hmem
    have := (List.mem_filter.mp hmem).2
    simp at this

/-- `cities = set(item.get("City", "Unknown") for item in data)`
(line 511), as the list of distinct City values in discovery order; the
City key is always present on an extracted record, so the default never
applies. -/
def citiesOf (data : List Record) : List Str :=
  firstOccs (data.map (fun r => r.city))

-- ------------------------ Claims C7 and C9 ------------------------

/-- C7: for every extracted Record, a Duty Station containing a comma
yields the trimmed text before the first comma as City, otherwise City is
the whole Duty Station; the City value is the key later passed to the
geocoder, and the two spec examples hold. -/
theorem c7_duty_station_parsing :
    (∀ (card : Card) (r : Record), extract_job_details card = some r →
      (',' ∈ r.dutyStation →
        r.city = pyStrip (r.dutyStation.takeWhile (fun c => !decide (c = ',')))) ∧
      (',' ∉ r.dutyStation → r.city = r.dutyStation)) ∧
    (∀ data : List Record, ∀ r ∈ data, r.city ∈ citiesOf data) ∧
    cityFromDuty (s2l "Geneva, Switzerland") = s2l "Geneva" ∧
    cityFromDuty (s2l "Vienna") = s2l "Vienna" := by
  refine ⟨?_, ?_, by decide, by decide⟩
  · intro card r h
    have hc := extract_cityDutyOk h
    rw [CityDutyOk] at hc
    constructor
    · intro hcomma
      rw [hc, cityFromDuty, if_pos hcomma]
    · intro hnc
      rw [hc, cityFromDuty, if_neg hnc]
  · intro data r hr
    rw [citiesOf, mem_firstOccs]
    exact List.mem_map_of_mem _ hr

/-- The concrete card and record of the C7 witness. -/
def c7card : Card :=
  { titleText := some (s2l "Intern - Political Affairs"),
    jobIdText := some (s2l "Job ID: 12345"),
    bodyLines := some [s2l "Duty Station : Geneva, Switzerland"],
    linkHref := .noElement }

def c7rec : Record :=
  { title := s2l "Intern - Political Affairs", jobId := s2l "12345",
    jobNetwork := [], jobFamily := [], catLevel := [],
    dutyStation := s2l "Geneva, Switzerland", city := s2l "Geneva",
    country := [], deptOffice := [], datePosted := [], deadline := [], link := [] }

/-- C7 witness: the theorem applied at a concrete extracted card. -/
theorem c7_duty_station_parsing_witness :
    c7rec.city = pyStrip (c7rec.dutyStation.takeWhile (fun c => !decide (c = ','))) :=
  (c7_duty_station_parsing.1 c7card c7rec (by decide)).1 (by decide)

theorem processLine_jobId (jd : Record) (line : Str) :
    (processLine jd line).jobId = jd.jobId := by
  unfold processLine
  split_ifs <;> rfl

theorem processLine_title (jd : Record) (line : Str) :
    (processLine jd line).title = jd.title := by
  unfold processLine
  split_ifs <;> rfl

theorem foldl_processLine_jobId :
    ∀ (lines : List Str) (jd : Record), (lines.foldl processLine jd).jobId = jd.jobId := by
  intro lines
  induction lines with
  | nil => intro jd; rfl
  | cons l ls ih => intro jd; rw [List.foldl_cons, ih, processLine_jobId]

theorem foldl_processLine_title :
    ∀ (lines : List Str) (jd : Record), (lines.foldl processLine jd).title = jd.title := by
  intro lines
  induction lines with
  | nil => intro jd; rfl
  | cons l ls ih => intro jd; rw [List.foldl_cons, ih, processLine_title]

/-- The card of the C9 counterexample: its id element carries empty text. -/
def c9card : Card :=
  { titleText := some (s2l "Some Internship"), jobIdText := some [],
    bodyLines := some [], linkHref := .noElement }

def c9rec : Record := emptyDetails (s2l "Some Internship") []

/-- C9 counterexample: the claim asserts every emitted Record has a
non-empty JobID, but a card whose id element text is empty is extracted
successfully, emitted into the page's records, and carries an empty
JobID — nothing in the code checks non-emptiness. -/
theorem c9_counterexample :
    extract_job_details c9card = some c9rec ∧ c9rec.jobId = [] ∧
    pageRecords [c9card] = [c9rec] := by
  decide

/-- Dropping one failing card leaves the records of the other cards
untouched. -/
theorem pageRecords_drop_failed (pre post : List Card) (c : Card)
    (h : extract_job_details c = none) :
    pageRecords (pre ++ c :: post) = pageRecords (pre ++ post) := by
  simp [pageRecords, List.filterMap_append, List.filterMap_cons, h]

/-- C9 (amended): a card whose extraction raises is dropped entirely
rather than emitted with partial field data, and every emitted Record is
fully constructed, with JobID the trimmed text after the last colon of the
id element — which may be empty, since non-emptiness is not enforced. -/
theorem c9_card_drop :
    (∀ (pre post : List Card) (c : Card), extract_job_details c = none →
      pageRecords (pre ++ c :: post) = pageRecords (pre ++ post)) ∧
    (∀ (c : Card) (r : Record), extract_job_details c = some r →
      ∃ t idt lines, c.titleText = some t ∧ c.jobIdText = some idt ∧
        c.bodyLines = some lines ∧ r.title = pyStrip t ∧
        r.jobId = pyStrip (lastSegAfter [':'] idt)) := by
  constructor
  · exact pageRecords_drop_failed
  · intro c r h
    unfold extract_job_details at h
    cases ht : c.titleText with
    | none => rw [ht] at h; exact absurd h (by simp)
    | some t =>
      cases hi : c.jobIdText with
      | none => rw [ht, hi] at h; exact absurd h (by simp)
      | some idt =>
        cases hb : c.bodyLines with
        | none => rw [ht, hi, hb] at h; exact absurd h (by simp)
        | some lines =>
          rw [ht, hi, hb] at h
          refine ⟨t, idt, lines, rfl, rfl, rfl, ?_⟩
          cases hl : c.linkHref with
          | nullHref => rw [hl] at h; exact absurd h (by simp)
          | noElement =>
            rw [hl] at h
            simp only [Option.some.injEq] at h
            rw [← h]
            constructor
            · simpa using foldl_processLine_title lines _
            · simpa using foldl_processLine_jobId lines _
          | href s =>
            rw [hl] at h
            simp only [Option.some.injEq] at h
            rw [← h]
            constructor
            · simpa using foldl_processLine_title lines _
            · simpa using foldl_processLine_jobId lines _

/-- The failing card of the C9 witness: its title element lookup raises. -/
def c9badCard : Card :=
  { titleText := none, jobIdText := some (s2l "Job ID: 1"),
    bodyLines := some [], linkHref := .noElement }

/-- C9 witness: the drop half of the amended theorem applied at a concrete
card whose extraction fails. -/
theorem c9_card_drop_witness :
    pageRecords ([] ++ c9badCard :: []) = pageRecords ([] ++ []) :=
  c9_card_drop.1 [] [] c9badCard (by decide)

-- ------------------------ Pagination driver ------------------------

/-- What locating and clicking the Next control observes (lines 360-393):
an enabled control, a parent `li` marked disabled, or one of the three
caught interaction exceptions. -/
inductive NextOutcome where
  | clickable
  | disabled
  | errTimeout
  | errNoSuchElement
  | errClickIntercepted
deriving DecidableEq

/-- `click_next_page`: True only when an enabled Next control was clicked;
a disabled control returns False, and each caught interaction failure is
logged with a screenshot and returns False. -/
def click_next_page : NextOutcome → Bool
  | .clickable => true
  | .disabled => false
  | .errTimeout => false
  | .errNoSuchElement => false
  | .errClickIntercepted => false

/-- One rendered listing page: the job card elements found on it and what
the Next control does afterwards. -/
structure Page where
  cards : List Card
  next : NextOutcome
deriving DecidableEq

/-- Why the pagination loop stopped. -/
inductive StopReason where
  | noJobs
  | noNext
  | ranOut
deriving DecidableEq

/-- The `while True` pagination loop of `get_internship_data`
(lines 419-444) over the finite sequence of page states the site presents:
first the zero-cards check (page-source snapshot, break), then extraction,
then the Next interaction; `.ranOut` is the artifact of the modelled page
sequence being exhausted while the loop would continue. -/
def runPages : List Page → List Record × StopReason
  | [] => ([], .ranOut)
  | p :: ps =>
    if p.cards.isEmpty then ([], .noJobs)
    else
      let recs := pageRecords p.cards
      if click_next_page p.next then
        let r := runPages ps
        (recs ++ r.1, r.2)
      else (recs, .noNext)

/-- The Selenium exception types relevant to the consent and page-size
steps; the last three appear in no except clause of those steps. -/
inductive PyExc where
  | timeout
  | noSuchElement
  | clickIntercepted
  | elementNotInteractable
  | staleElement
  | javascript
deriving DecidableEq

/-- Consent-step outcomes: a clickable prompt that is dismissed, an absent
prompt (the wait raises TimeoutException), or a prompt whose click raises
ElementClickInterceptedException. -/
inductive ConsentOutcome where
  | promptShown
  | promptAbsent
  | clickIntercepted
deriving DecidableEq

/-- `accept_cookies` (lines 188-203): its except clause catches only
TimeoutException and NoSuchElementException, so an intercepted consent
click escapes the component. -/
def accept_cookies : ConsentOutcome → Except PyExc Unit
  | .promptShown => .ok ()
  | .promptAbsent => .ok ()
  | .clickIntercepted => .error .clickIntercepted

/-- Outcomes of the page-size configuration step: success, the three
interaction failures its except clause names, and the exception paths it
does not catch (a non-interactable or stale dropdown on the direct click,
a JavascriptException from `execute_script`). -/
inductive PageSizeOutcome where
  | ok
  | errTimeout
  | errNoSuchElement
  | errClickIntercepted
  | errNotInteractable
  | errStaleElement
  | errJavascript
deriving DecidableEq

/-- `set_records_per_page` (lines 223-264): the three caught interaction
failures are logged with a screenshot and the run proceeds with the
default page size; any other exception escapes the component. -/
def set_records_per_page : PageSizeOutcome → Except PyExc Unit
  | .ok => .ok ()
  | .errTimeout => .ok ()
  | .errNoSuchElement => .ok ()
  | .errClickIntercepted => .ok ()
  | .errNotInteractable => .error .elementNotInteractable
  | .errStaleElement => .error .staleElement
  | .errJavascript => .error .javascript

/-- The external behaviour one scraping run observes. -/
structure World where
  loadOk : Bool
  consent : ConsentOutcome
  pageSize : PageSizeOutcome
  pages : List Page
deriving DecidableEq

/-- `get_internship_data` (lines 395-453): the whole navigation body runs
inside one `try`; an exception a step lets escape — the initial load
timeout, or an uncaught consent or page-size exception — reaches the outer
`except Exception` handler, which logs it and the accumulated list (still
empty, those steps precede the loop) is returned.  When every pre-loop
step is clean the pagination loop accumulates records. -/
def get_internship_data (w : World) : List Record :=
  if w.loadOk then
    match accept_cookies w.consent with
    | .error _ => []
    | .ok _ =>
      match set_records_per_page w.pageSize with
      | .error _ => []
      | .ok _ => (runPages w.pages).1
  else []

-- ------------------------ Claims C4 and C5 ------------------------

/-- C4: a page with zero extracted cards ends pagination with exactly the
records accumulated on all prior pages, whatever its Next control would
do — the zero-card check runs before the next-control check — and
whenever the page sequence offers a terminating signal, the loop stops for
one of the two normal reasons (zero cards, or a disabled/unreachable Next
control). -/
theorem c4_pagination_termination :
    (∀ (prior rest : List Page) (p : Page),
      (∀ q ∈ prior, q.cards ≠ [] ∧ click_next_page q.next = true) →
      p.cards = [] →
      runPages (prior ++ p :: rest)
        = ((prior.map (fun q => pageRecords q.cards)).flatten, .noJobs)) ∧
    (∀ pages : List Page,
      (∃ q ∈ pages, q.cards = [] ∨ click_next_page q.next = false) →
      (runPages pages).2 = .noJobs ∨ (runPages pages).2 = .noNext) := by
  constructor
  · intro prior
    induction prior with
    | nil =>
      intro rest p _ hp
      simp [runPages, hp]
    | cons q qs ih =>
      intro rest p hall hp
      have hq := hall q (List.mem_cons_self _ _)
      have hqs : ∀ x ∈ qs, x.cards ≠ [] ∧ click_next_page x.next = true :=
        fun x hx => hall x (List.mem_cons_of_mem _ hx)
      have hne : q.cards.isEmpty = false := by
        cases hcc : q.cards with
        | nil => exact absurd hcc hq.1
        | cons a l => rfl
      rw [List.cons_append]
      have hstep : runPages (q :: (qs ++ p :: rest))
          = (pageRecords q.cards ++ (runPages (qs ++ p :: rest)).1,
             (runPages (qs ++ p :: rest)).2) := by
        simp [runPages, hne, hq.2]
      rw [hstep, ih rest p hqs hp]
      simp
  · intro pages
    induction pages with
    | nil =>
      rintro ⟨q, hq, _⟩
      simp at hq
    | cons p ps ih =>
      rintro ⟨q, hq, hcase⟩
      by_cases hpc : p.cards.isEmpty
      · left
        simp [runPages, hpc]
      · by_cases hnext : click_next_page p.next
        · have hqps : q ∈ ps := by
            rcases List.mem_cons.mp hq with h | h
            · subst h
              rcases hcase with h1 | h1
              · rw [h1] at hpc
                exact absurd rfl hpc
              · rw [h1] at hnext
                exact absurd hnext (by decide)
            · exact h
          have := ih ⟨q, hqps, hcase⟩
          simpa [runPages, hpc, hnext] using this
        · right
          simp [runPages, hpc, hnext]

/-- Concrete pages of the C4 witness. -/
def c4card : Card :=
  { titleText := some (s2l "T"), jobIdText := some (s2l "Job ID: 7"),
    bodyLines := some [], linkHref := .noElement }

def c4page : Page := { cards := [c4card], next := .clickable }

def c4emptyPage : Page := { cards := [], next := .clickable }

/-- C4 witness: the theorem applied at one full page followed by an empty
page whose Next control would still be enabled. -/
theorem c4_pagination_termination_witness :
    runPages ([c4page] ++ c4emptyPage :: [])
      = (([c4page].map (fun q => pageRecords q.cards)).flatten, .noJobs) :=
  c4_pagination_termination.1 [c4page] [] c4emptyPage (by decide) (by decide)

/-- The page of the C5 counterexample: one card that extracts cleanly,
then a disabled Next control. -/
def c5page : Page := { cards := [c4card], next := .disabled }

/-- The world of the C5 counterexample: the page loads, but the consent
click raises ElementClickInterceptedException. -/
def c5badWorld : World :=
  { loadOk := true, consent := .clickIntercepted, pageSize := .ok,
    pages := [c5page] }

/-- C5 counterexample: the claim makes the initial load timeout the only
fatal failure, every consent failure being caught at its component
boundary.  But `accept_cookies` catches only TimeoutException and
NoSuchElementException, so an ElementClickInterceptedException from the
consent click escapes to the run-level handler: a run whose page would
have yielded a record returns empty, while the same world with a
dismissable prompt does not. -/
theorem c5_counterexample :
    get_internship_data c5badWorld = [] ∧
    get_internship_data { c5badWorld with consent := .promptShown } ≠ [] := by
  decide

/-- C5 (amended): the initial page-load timeout aborts the run with the
empty result, and so does any consent or page-size exception outside those
steps' except clauses; every failure a component's except clause does
catch stays inside its component — caught consent and page-size outcomes
never change the result, a failing card is dropped at the card boundary, a
failing Next interaction behaves exactly like a disabled control (the run
keeps its accumulated records), and a geocode lookup always returns a pair
for its city rather than unwinding — and a run whose pre-loop steps are
clean returns exactly the pagination loop's accumulated records. -/
theorem c5_failure_taxonomy :
    (∀ w : World, w.loadOk = false → get_internship_data w = []) ∧
    (∀ (w : World) (e : PyExc), accept_cookies w.consent = .error e →
      get_internship_data w = []) ∧
    (∀ (w : World) (e : PyExc), set_records_per_page w.pageSize = .error e →
      get_internship_data w = []) ∧
    (∀ (w : World) (c1 c2 : ConsentOutcome) (s1 s2 : PageSizeOutcome),
      accept_cookies c1 = .ok () → accept_cookies c2 = .ok () →
      set_records_per_page s1 = .ok () → set_records_per_page s2 = .ok () →
      get_internship_data { w with consent := c1, pageSize := s1 }
        = get_internship_data { w with consent := c2, pageSize := s2 }) ∧
    (∀ w : World, w.loadOk = true → accept_cookies w.consent = .ok () →
      set_records_per_page w.pageSize = .ok () →
      get_internship_data w = (runPages w.pages).1) ∧
    (∀ (pre post : List Card) (c : Card), extract_job_details c = none →
      pageRecords (pre ++ c :: post) = pageRecords (pre ++ post)) ∧
    (∀ (cds : List Card) (ps : List Page) (o : NextOutcome),
      click_next_page o = false →
      runPages ({ cards := cds, next := o } :: ps)
        = runPages ({ cards := cds, next := .disabled } :: ps)) ∧
    (∀ (table : List CountryEntry) (behav : Str → GeoReply) (city : Str),
      ∃ country, geocode_city table behav city = (city, country)) := by
  refine ⟨?_, ?_, ?_, ?_, ?_, pageRecords_drop_failed, ?_, ?_⟩
  · intro w h
    simp [get_internship_data, h]
  · intro w e h
    cases hl : w.loadOk <;> simp [get_internship_data, hl, h]
  · intro w e h
    cases hl : w.loadOk <;> cases hc : accept_cookies w.consent <;>
      simp [get_internship_data, hl, hc, h]
  · intro w c1 c2 s1 s2 h1 h2 h3 h4
    cases hl : w.loadOk <;> simp [get_internship_data, hl, h1, h2, h3, h4]
  · intro w hl h1 h2
    simp [get_internship_data, hl, h1, h2]
  · intro cds ps o h
    have hd : click_next_page NextOutcome.disabled = false := rfl
    simp [runPages, h, hd]
  · intro table behav city
    refine ⟨(geocode_city table behav city).2, ?_⟩
    have := geocode_city_fst table behav city
    rw [Prod.ext_iff]
    exact ⟨this, rfl⟩

/-- The failing world of the C5 witness: the initial page load times out. -/
def c5world : World :=
  { loadOk := false, consent := .promptAbsent, pageSize := .ok,
    pages := [c4page] }

/-- A world whose pre-loop failures are all caught ones: the consent wait
times out and the page-size step hits its caught TimeoutException. -/
def c5okWorld : World :=
  { loadOk := true, consent := .promptAbsent, pageSize := .errTimeout,
    pages := [c5page] }

/-- C5 witness: the fatal case applied at a concrete world, and the
clean-run case applied at a world whose consent and page-size failures are
the caught ones. -/
theorem c5_failure_taxonomy_witness :
    get_internship_data c5world = [] ∧
    get_internship_data c5okWorld = (runPages [c5page]).1 :=
  ⟨c5_failure_taxonomy.1 c5world rfl,
   c5_failure_taxonomy.2.2.2.2.1 c5okWorld rfl rfl rfl⟩

-- ------------------------ Excel handling ------------------------

/-- Lines 531-535: fill the Country slot from the geocoded mapping keyed
by the City field, standardized once more. -/
def enrichItem (table : List CountryEntry) (dict : List (Str × Str)) (r : Record) :
    Record :=
  { r with country :=
      get_standard_country_name table (dictLookup dict r.city (s2l "Unknown")) }

/-- The filtering-and-enrichment loop of `save_to_excel` (lines 524-536):
records whose Job ID is in the applied set are skipped, the rest get their
Country filled in. -/
def filteredData (table : List CountryEntry) (behav : Str → GeoReply)
    (applied : List Str) (data : List Record) : List Record :=
  let dict := geocode_cities table behav (citiesOf data)
  data.filterMap (fun item =>
    if item.jobId ∈ applied then none else some (enrichItem table dict item))

/-- The fixed 12-column header (lines 568-581). -/
def headerRow : List Str :=
  [s2l "Title", s2l "Job ID", s2l "Job Network", s2l "Job Family",
   s2l "Category and Level", s2l "Duty Station", s2l "City", s2l "Country",
   s2l "Department/Office", s2l "Date Posted", s2l "Deadline",
   s2l "Job Description Link"]

/-- One appended data row (lines 587-600). -/
def rowOf (r : Record) : List Str :=
  [r.title, r.jobId, r.jobNetwork, r.jobFamily, r.catLevel, r.dutyStation,
   r.city, r.country, r.deptOffice, r.datePosted, r.deadline, r.link]

structure Sheet where
  sname : Str
  rows : List (List Str)
deriving DecidableEq

structure Workbook where
  sheets : List Sheet
deriving DecidableEq

/-- The per-country sheet loop (lines 554-601), carrying the sheet-name
registry; the first country's sheet stands where openpyxl's renamed
default sheet does. -/
def sheetsAux (recs : List Record) : List Str → List Str → List Sheet
  | [], _ => []
  | ctry :: cs, reg =>
    let p := sanitize_sheet_name ctry reg
    { sname := p.1,
      rows := headerRow ::
        (recs.filter (fun r => decide (r.country = ctry))).map rowOf }
      :: sheetsAux recs cs p.2

/-- A fresh `openpyxl.Workbook()`: one default sheet, no rows. -/
def defaultWorkbook : Workbook := { sheets := [{ sname := s2l "Sheet", rows := [] }] }

/-- The observable effects of one `save_to_excel` call. -/
structure SaveTrace where
  geocodedCities : Option (List Str)
  loadedApplied : Bool
  written : Option Workbook
deriving DecidableEq

/-- `save_to_excel` (lines 499-605): an empty dataset returns before
geocoding, applied-set loading and saving; otherwise the enriched filtered
dataset is partitioned by country in discovery order and written sheet by
sheet. -/
def save_to_excel (table : List CountryEntry) (behav : Str → GeoReply)
    (applied : List Str) (data : List Record) : SaveTrace :=
  if data = [] then { geocodedCities := none, loadedApplied := false, written := none }
  else
    let filtered := filteredData table behav applied data
    let countries := firstOccs (filtered.map (fun r => r.country))
    let wb : Workbook :=
      if countries = [] then defaultWorkbook
      else { sheets := sheetsAux filtered countries [] }
    { geocodedCities := some (citiesOf data), loadedApplied := true,
      written := some wb }

/-- `main` (lines 609-618), acting on the destination file contents:
`save_to_excel` is called only when the scrape returned records, and the
file is replaced only when a workbook was written. -/
def mainRun (table : List CountryEntry) (behav : Str → GeoReply)
    (applied : List Str) (w : World) (fs : Option Workbook) : Option Workbook :=
  let internships := get_internship_data w
  if internships = [] then fs
  else
    match (save_to_excel table behav applied internships).written with
    | some wb => some wb
    | none => fs

theorem sheetsAux_rows (recs : List Record) :
    ∀ (cs reg : List Str),
      (sheetsAux recs cs reg).map Sheet.rows
        = cs.map (fun c =>
            headerRow :: (recs.filter (fun r => decide (r.country = c))).map rowOf) := by
  intro cs
  induction cs with
  | nil => intro reg; rfl
  | cons c cs ih =>
    intro reg
    simp only [sheetsAux, List.map_cons, ih]

theorem firstOccs_eq_nil_iff (l : List Str) : firstOccs l = [] ↔ l = [] := by
  cases l with
  | nil => simp [firstOccs]
  | cons c cs => simp [firstOccs]

-- ------------------------ Claims C1, C2 and C10 ------------------------

/-- C1: whenever the enriched filtered dataset is non-empty, the written
workbook has exactly one sheet per distinct country value, sheets stand in
country discovery order, and each sheet consists of the 12-column header
row followed by that country's records in extraction order. -/
theorem c1_workbook_writer (table : List CountryEntry) (behav : Str → GeoReply)
    (applied : List Str) (data : List Record)
    (hne : filteredData table behav applied data ≠ []) :
    ∃ wb : Workbook,
      (save_to_excel table behav applied data).written = some wb ∧
      wb.sheets.map Sheet.rows
        = (firstOccs ((filteredData table behav applied data).map
            (fun r => r.country))).map
            (fun c => headerRow ::
              ((filteredData table behav applied data).filter
                (fun r => decide (r.country = c))).map rowOf) ∧
      wb.sheets.length
        = (firstOccs ((filteredData table behav applied data).map
            (fun r => r.country))).length ∧
      (firstOccs ((filteredData table behav applied data).map
        (fun r => r.country))).Nodup ∧
      (∀ c : Str,
        c ∈ firstOccs ((filteredData table behav applied data).map
              (fun r => r.country))
          ↔ c ∈ (filteredData table behav applied data).map (fun r => r.country)) := by
  have hdata : data ≠ [] := by
    intro h
    subst h
    exact hne rfl
  have hctry : firstOccs ((filteredData table behav applied data).map
      (fun r => r.country)) ≠ [] := by
    rw [Ne, firstOccs_eq_nil_iff, List.map_eq_nil_iff]
    exact hne
  refine ⟨Workbook.mk (sheetsAux (filteredData table behav applied data)
      (firstOccs ((filteredData table behav applied data).map (fun r => r.country)))
      []), ?_, ?_, ?_, nodup_firstOccs _, fun c => mem_firstOccs _ c⟩
  · rw [save_to_excel, if_neg hdata]
    show some (if firstOccs ((filteredData table behav applied data).map
          (fun r => r.country)) = [] then defaultWorkbook
        else Workbook.mk (sheetsAux (filteredData table behav applied data)
          (firstOccs ((filteredData table behav applied data).map
            (fun r => r.country))) [])) = _
    rw [if_neg hctry]
  · exact sheetsAux_rows _ _ _
  · have := congrArg List.length (sheetsAux_rows (filteredData table behav applied data)
      (firstOccs ((filteredData table behav applied data).map (fun r => r.country))) [])
    simpa using this

/-- The end-to-end scenario records and collaborators (spec §8). -/
def r12345 : Record :=
  { title := s2l "Intern A", jobId := s2l "12345", jobNetwork := [], jobFamily := [],
    catLevel := [], dutyStation := s2l "Geneva, Switzerland", city := s2l "Geneva",
    country := [], deptOffice := [], datePosted := [], deadline := [], link := [] }

def r67890 : Record :=
  { title := s2l "Intern B", jobId := s2l "67890", jobNetwork := [], jobFamily := [],
    catLevel := [], dutyStation := s2l "New York, United States",
    city := s2l "New York", country := [], deptOffice := [], datePosted := [],
    deadline := [], link := [] }

def tableW : List CountryEntry :=
  [{ cname := s2l "Switzerland", keys := [s2l "switzerland"] },
   { cname := s2l "United States", keys := [s2l "united states"] }]

def behavW : Str → GeoReply :=
  fun c => if c = s2l "Geneva" then GeoReply.address (s2l "Geneva, Switzerland")
    else GeoReply.noResult

/-- C1 witness: the theorem applied at the spec's end-to-end scenario —
two records with Job IDs 12345 and 67890 and an applied set containing
67890. -/
theorem c1_workbook_writer_witness :
    ∃ wb : Workbook,
      (save_to_excel tableW behavW [s2l "67890"] [r12345, r67890]).written = some wb ∧
      wb.sheets.map Sheet.rows
        = (firstOccs ((filteredData tableW behavW [s2l "67890"] [r12345, r67890]).map
            (fun r => r.country))).map
            (fun c => headerRow ::
              ((filteredData tableW behavW [s2l "67890"] [r12345, r67890]).filter
                (fun r => decide (r.country = c))).map rowOf) ∧
      wb.sheets.length
        = (firstOccs ((filteredData tableW behavW [s2l "67890"] [r12345, r67890]).map
            (fun r => r.country))).length ∧
      (firstOccs ((filteredData tableW behavW [s2l "67890"] [r12345, r67890]).map
        (fun r => r.country))).Nodup ∧
      (∀ c : Str,
        c ∈ firstOccs ((filteredData tableW behavW [s2l "67890"] [r12345, r67890]).map
              (fun r => r.country))
          ↔ c ∈ (filteredData tableW behavW [s2l "67890"] [r12345, r67890]).map
              (fun r => r.country)) :=
  c1_workbook_writer tableW behavW [s2l "67890"] [r12345, r67890] (by decide)

/-- C2: a Record whose JobID is in the applied set never appears in the
dataset handed to the writer, and a Record whose JobID is not in the set
always appears there (enriched in place, its JobID unchanged). -/
theorem c2_applied_filter (table : List CountryEntry) (behav : Str → GeoReply)
    (applied : List Str) (data : List Record) :
    (∀ r ∈ filteredData table behav applied data, r.jobId ∉ applied) ∧
    (∀ item ∈ data, item.jobId ∉ applied →
      enrichItem table (geocode_cities table behav (citiesOf data)) item
        ∈ filteredData table behav applied data) ∧
    (∀ (dict : List (Str × Str)) (r : Record),
      (enrichItem table dict r).jobId = r.jobId) := by
  refine ⟨?_, ?_, fun dict r => rfl⟩
  · intro r hr
    rw [filteredData, List.mem_filterMap] at hr
    obtain ⟨item, hitem, hf⟩ := hr
    by_cases hid : item.jobId ∈ applied
    · rw [if_pos hid] at hf
      exact absurd hf (by simp)
    · rw [if_neg hid] at hf
      simp only [Option.some.injEq] at hf
      rw [← hf]
      exact hid
  · intro item hitem hid
    rw [filteredData, List.mem_filterMap]
    exact ⟨item, hitem, by rw [if_neg hid]⟩

/-- C2 witness: the record whose Job ID 12345 is not in the applied set
survives (enriched) into the writer's dataset. -/
theorem c2_applied_filter_witness :
    enrichItem tableW (geocode_cities tableW behavW (citiesOf [r12345, r67890])) r12345
      ∈ filteredData tableW behavW [s2l "67890"] [r12345, r67890] :=
  (c2_applied_filter tableW behavW [s2l "67890"] [r12345, r67890]).2.1
    r12345 (by decide) (by decide)

/-- C10: called with an empty record list, `save_to_excel` returns at once
with no geocoding, no applied-set load and no workbook write; accordingly
a run that extracted zero records leaves the destination file unchanged. -/
theorem c10_empty_run (table : List CountryEntry) (behav : Str → GeoReply)
    (applied : List Str) :
    save_to_excel table behav applied []
      = { geocodedCities := none, loadedApplied := false, written := none } ∧
    (∀ (w : World) (fs : Option Workbook),
      get_internship_data w = [] → mainRun table behav applied w fs = fs) := by
  constructor
  · rfl
  · intro w fs h
    simp [mainRun, h]

/-- C10 witness: the theorem applied at a world whose initial load fails
(zero records extracted) and an arbitrary concrete prior file. -/
theorem c10_empty_run_witness :
    mainRun tableW behavW [] c5world (some defaultWorkbook) = some defaultWorkbook :=
  (c10_empty_run tableW behavW []).2 c5world (some defaultWorkbook) rfl
